import Mathlib

/-!
# Verification of `FetchQueue` / `QueuedResponse` (src/src/Fetch.ts)

Shallow embedding of the priority-aware admission-control queue.  The TS
class `FetchQueue` keeps three mutable fields (`active`, `queue`,
`lastReleaseTime`); all mutation happens in the single-threaded JS event
loop, so we model an execution as a sequence of atomic scheduler events
acting on an explicit state:

* `Ev.arrive j p t`  — a `waitTurn(p)` call at time `t`: the promise
  executor runs `tryAcquire()` synchronously up to its first `await`.
  If `active < maxRequests` the job is suspended at
  `await this.waitForDelay()` (recorded in `delaying` together with the
  earliest time its continuation can run); otherwise it is appended to
  the priority bucket `queue[p]`.
* `Ev.resume j t`  — the continuation after `await this.waitForDelay()`
  runs: `active++` and the promise resolves with `unlock` (recorded in
  `granted` with the admission time).
* `Ev.release j t` — an `unlock` closure handed to job `j` is invoked at
  time `t`: `active--`, `lastReleaseTime = Date.now()`, then `next()`.

Timing model: `Date.now()` is the event's `t`; `now` in the state makes
timestamps monotone along a trace.  For a job that passes the capacity
check at time `t`, `waitForDelay` either returns at once (its `await`
still defers the continuation to a microtask, earliest resume time `t`)
or sets a timer that fires at `lastReleaseTime + requestTimeoutMS`; the
`readyAt` function computes this earliest resume time.

`resume` is only allowed for the *head* of `delaying`: entries enter
`delaying` with nondecreasing deadlines (a popped waiter always computes
its deadline from the `lastReleaseTime` that was just written, and the
JS event loop runs equal-deadline timer callbacks and microtasks in
registration order), so continuations of queued-then-popped waiters run
in pop order.

`granted` is never shrunk by `release`: the TS `unlock` closure stays
invocable after its first call (it has no one-shot guard), and `release`
only requires that the job was granted an `unlock` at some point.
-/

/-- State of a `FetchQueue` instance together with the scheduler context.
Fields `maxRequests`, `requestTimeoutMS`, `active`, `buckets` (the TS
`queue` record mapping priority to the FIFO list of suspended
`tryAcquire` callbacks, identified by job id) and `lastReleaseTime`
mirror the TS fields; `delaying`, `granted` and `now` record the
event-loop context (jobs suspended at the pacing `await` with their
earliest resume time, jobs already admitted with their admission time,
and the current clock). -/
structure QState where
  maxRequests : Int
  requestTimeoutMS : Int
  active : Int
  buckets : List (Int × List Nat)
  lastReleaseTime : Int
  delaying : List (Nat × Int)
  granted : List (Nat × Int)
  now : Int
deriving Repr, DecidableEq

/-- The state right after `new FetchQueue(maxRequests, requestTimeoutMS)`:
the constructor body is empty, so every field starts at its initializer
(`active = 0`, `queue = {}`, `lastReleaseTime = 0`) with no validation of
the arguments. -/
def initState (maxRequests requestTimeoutMS : Int) : QState :=
  ⟨maxRequests, requestTimeoutMS, 0, [], 0, [], [], 0⟩

/-- Append job `j` to priority bucket `p`, creating the bucket when the
key is absent: `if (this.queue[priority] == undefined) { this.queue[priority]
= [tryAcquire] } else { this.queue[priority].push(tryAcquire) }`. -/
def bucketPush : List (Int × List Nat) → Int → Nat → List (Int × List Nat)
  | [], p, j => [(p, [j])]
  | (q, l) :: rest, p, j =>
      if q = p then (q, l ++ [j]) :: rest else (q, l) :: bucketPush rest p j

/-- Look up the bucket stored under key `p` (`this.queue[key]`). -/
def bucketLookup : List (Int × List Nat) → Int → Option (List Nat)
  | [], _ => none
  | (q, l) :: rest, p => if q = p then some l else bucketLookup rest p

/-- Remove the bucket stored under key `p` (`delete this.queue[key]`). -/
def bucketErase (bs : List (Int × List Nat)) (p : Int) : List (Int × List Nat) :=
  bs.filter (fun b => b.1 ≠ p)

/-- Replace the bucket stored under key `p` by `l` (the in-place effect of
`q.shift()` on `this.queue[key]` when the rest is non-empty). -/
def bucketSet (bs : List (Int × List Nat)) (p : Int) (l : List Nat) :
    List (Int × List Nat) :=
  bs.map (fun b => if b.1 = p then (p, l) else b)

/-- `Math.min(...Object.keys(this.queue).map(x => Number(x)))`: the least
priority key present, or `none` when the map is empty (the TS code then
indexes with `Infinity`, finds `undefined` and does nothing). -/
def minKey : List (Int × List Nat) → Option Int
  | [] => none
  | (p, _) :: rest =>
      match minKey rest with
      | none => some p
      | some q => some (min p q)

/-- Earliest time the continuation after `await this.waitForDelay()` can
run for a check performed at time `t` with the given `lastReleaseTime`:
with `requestTimeoutMS <= 0` the function returns at once (the `await`
still defers to a microtask, so the continuation runs no earlier than
`t`); otherwise, if `elapsed = t - lastReleaseTime < requestTimeoutMS`, a
timer fires at `lastReleaseTime + requestTimeoutMS`, else no timer is set
and the continuation runs no earlier than `t`. -/
def readyAt (requestTimeoutMS lastReleaseTime t : Int) : Int :=
  if requestTimeoutMS ≤ 0 then t
  else if t - lastReleaseTime < requestTimeoutMS then
    lastReleaseTime + requestTimeoutMS
  else t

/-- The synchronous prefix of `tryAcquire` for job `j` with the captured
`priority` `p`, run at time `t`: if `active < maxRequests` the job
suspends at the pacing `await` (the increment of `active` happens only in
the continuation, i.e. at the later `resume` event); otherwise the job is
appended to its priority bucket. -/
def tryAcquire (s : QState) (j : Nat) (p : Int) (t : Int) : QState :=
  if s.active < s.maxRequests then
    { s with delaying :=
        s.delaying ++ [(j, readyAt s.requestTimeoutMS s.lastReleaseTime t)] }
  else
    { s with buckets := bucketPush s.buckets p j }

/-- `FetchQueue.next()`, called from `unlock` at time `t`: find the least
priority key, `shift()` the head of that bucket, `delete` the bucket if
it became empty, then call the popped `tryAcquire` (which re-checks the
capacity and either suspends at the pacing `await` or re-appends itself
to the back of its bucket). -/
def nextStep (s : QState) (t : Int) : QState :=
  match minKey s.buckets with
  | none => s
  | some key =>
      match bucketLookup s.buckets key with
      | none => s
      | some [] => { s with buckets := bucketErase s.buckets key }
      | some (k :: rest) =>
          let s1 := { s with buckets :=
            (if rest = [] then bucketErase s.buckets key
              else bucketSet s.buckets key rest) }
          tryAcquire s1 k key t

/-- The body of the `unlock` closure invoked at time `t`:
`this.active--; this.lastReleaseTime = Date.now(); this.next()`. -/
def releaseStep (s : QState) (t : Int) : QState :=
  nextStep { s with active := s.active - 1, lastReleaseTime := t } t

/-- Job ids referenced anywhere in the state (used to keep arriving job
ids fresh). -/
def QState.jobs (s : QState) : List Nat :=
  s.buckets.foldr (fun b acc => b.2 ++ acc) []
    ++ s.delaying.map Prod.fst ++ s.granted.map Prod.fst

/-- Scheduler events, each stamped with the `Date.now()` at which it
runs. -/
inductive Ev where
  | arrive (j : Nat) (p : Int) (t : Int)
  | resume (j : Nat) (t : Int)
  | release (j : Nat) (t : Int)
deriving Repr, DecidableEq

/-- One scheduler event.  `none` means the event is not enabled (its
guard fails), i.e. such a trace cannot happen. -/
def step (s : QState) (e : Ev) : Option QState :=
  match e with
  | .arrive j p t =>
      if s.now ≤ t ∧ ¬ j ∈ s.jobs then
        some (tryAcquire { s with now := t } j p t)
      else none
  | .resume j t =>
      match s.delaying with
      | [] => none
      | (k, r) :: rest =>
          if s.now ≤ t ∧ j = k ∧ r ≤ t then
            some { s with delaying := rest, active := s.active + 1,
                          granted := s.granted ++ [(j, t)], now := t }
          else none
  | .release j t =>
      if s.now ≤ t ∧ j ∈ s.granted.map Prod.fst then
        some (releaseStep { s with now := t } t)
      else none

/-- Run a whole event trace. -/
def run (s : QState) : List Ev → Option QState
  | [] => some s
  | e :: es =>
      match step s e with
      | none => none
      | some s1 => run s1 es

/-!
## `QueuedResponse` (body reads) and `FetchQueue.fetch`

A `QueuedResponse` holds the metadata snapshot plus the optional
`bodyBlob` passed by `FetchQueue.fetch` when `bufferBody` is set.  Only
the body-read routing matters for the claims, so the model keeps the
blob as its byte list and leaves the platform conversions
(`Blob.arrayBuffer`, `Blob.text`, `JSON.parse`, ...) as the simplest
executable stand-ins (`utf8Decode`, a `parse` parameter).
-/

/-- The result of a body-read method: either a value produced directly
from the buffered blob (no queue interaction at all), or a deferred read
that first calls `this.queue.waitTurn(priority)` with the given
priority. -/
inductive BodyRead (α : Type) where
  | fromBuffer (v : α)
  | viaQueue (priority : Int)
deriving DecidableEq, Repr

/-- The part of a `QueuedResponse` the body-read methods inspect: the
optional buffered body (`bodyBlob`), a blob modelled as its byte list. -/
structure QueuedResponseM where
  bodyBlob : Option (List Nat)
deriving DecidableEq, Repr

/-- Stand-in for the platform text decoding used by `Blob.text()`. -/
def utf8Decode (bs : List Nat) : String :=
  String.mk (bs.map Char.ofNat)

/-- `QueuedResponse.arrayBuffer()`: buffered path returns
`this.bodyBlob.arrayBuffer()` (the blob's bytes); otherwise
`waitTurn(4)` then the deferred read. -/
def QueuedResponseM.arrayBuffer (r : QueuedResponseM) : BodyRead (List Nat) :=
  match r.bodyBlob with
  | some b => .fromBuffer b
  | none => .viaQueue 4

/-- `QueuedResponse.blob()`: buffered path returns `this.bodyBlob`
itself; otherwise `waitTurn(4)` then the deferred read. -/
def QueuedResponseM.blob (r : QueuedResponseM) : BodyRead (List Nat) :=
  match r.bodyBlob with
  | some b => .fromBuffer b
  | none => .viaQueue 4

/-- `QueuedResponse.bytes()`: buffered path returns
`this.bodyBlob.bytes()`; otherwise `waitTurn(4)` then the deferred
read. -/
def QueuedResponseM.bytes (r : QueuedResponseM) : BodyRead (List Nat) :=
  match r.bodyBlob with
  | some b => .fromBuffer b
  | none => .viaQueue 4

/-- `QueuedResponse.text()`: buffered path returns
`this.bodyBlob.text()`; otherwise `waitTurn(4)` then the deferred
read. -/
def QueuedResponseM.text (r : QueuedResponseM) : BodyRead String :=
  match r.bodyBlob with
  | some b => .fromBuffer (utf8Decode b)
  | none => .viaQueue 4

/-- `QueuedResponse.json()`: buffered path returns
`JSON.parse(await this.bodyBlob.text())` (the platform parser is the
`parse` parameter); otherwise `waitTurn(3)` then the deferred read. -/
def QueuedResponseM.json {J : Type} (parse : String → J) (r : QueuedResponseM) :
    BodyRead J :=
  match r.bodyBlob with
  | some b => .fromBuffer (parse (utf8Decode b))
  | none => .viaQueue 3

/-- `QueuedResponse.formData()`: the method never looks at
`this.bodyBlob` — it unconditionally runs `waitTurn(3)` and reads from
the raw response. -/
def QueuedResponseM.formData (_r : QueuedResponseM) : BodyRead Unit :=
  .viaQueue 3

/-- The part of `FetchQueue.fetch` that runs after `waitTurn(5)` has
resolved (the state `s` is the queue state at that point, `t` the time
the protected block finishes): `try` the network call — and, when
`bufferBody` is set, `await res.blob()` — then build the
`QueuedResponse`; the `finally` block invokes `free()` (the `unlock`
body, `releaseStep`) on every exit path, and any error from the `try`
block is re-thrown unchanged.  `outcome` is the result of the wrapped
operation: the response body on success, or the thrown error. -/
def fetchAfterAdmission (bufferBody : Bool) (s : QState) (t : Int)
    (outcome : Except String (List Nat)) :
    QState × Except String QueuedResponseM :=
  match outcome with
  | .ok body =>
      (releaseStep { s with now := t } t,
        .ok (if bufferBody then ⟨some body⟩ else ⟨none⟩))
  | .error e => (releaseStep { s with now := t } t, .error e)

/-- The deferred (`bodyBlob` absent) path of `QueuedResponse.json` after
`waitTurn(3)` has resolved: `try { return await this.res.json() }
finally { free() }` — the release runs on the success and on the error
path alike, and the error is re-thrown unchanged. -/
def jsonAfterAdmission {J : Type} (s : QState) (t : Int)
    (outcome : Except String J) : QState × Except String J :=
  match outcome with
  | .ok v => (releaseStep { s with now := t } t, .ok v)
  | .error e => (releaseStep { s with now := t } t, .error e)

/-- The observable effects of one `FetchQueue.fetch` call, in program
order: `await this.waitTurn(5)`; `await fetch(input, init)`; when
`bufferBody` is set, `await res.blob()`; and, in the `finally` block,
`free()`. -/
inductive FetchEffect where
  | acquireSlot
  | network
  | readBodyBlob
  | releaseSlot
deriving DecidableEq, BEq, Repr

/-- Effect order of `FetchQueue.fetch` for a given `bufferBody`
configuration. -/
def fetchEffects (bufferBody : Bool) : List FetchEffect :=
  [.acquireSlot, .network] ++ (if bufferBody then [.readBodyBlob] else []) ++ [.releaseSlot]

/-- Every priority bucket present in the map is non-empty. -/
def BucketsOK (bs : List (Int × List Nat)) : Prop :=
  ∀ b ∈ bs, b.2 ≠ []

/-- Executable form of `BucketsOK` for a whole state. -/
def bucketsNonemptyB (s : QState) : Bool :=
  s.buckets.all (fun b => !b.2.isEmpty)

/-!
## Helper lemmas
-/

theorem tryAcquire_active (s : QState) (j : Nat) (p t : Int) :
    (tryAcquire s j p t).active = s.active := by
  unfold tryAcquire; split <;> rfl

theorem tryAcquire_lastReleaseTime (s : QState) (j : Nat) (p t : Int) :
    (tryAcquire s j p t).lastReleaseTime = s.lastReleaseTime := by
  unfold tryAcquire; split <;> rfl

theorem tryAcquire_granted (s : QState) (j : Nat) (p t : Int) :
    (tryAcquire s j p t).granted = s.granted := by
  unfold tryAcquire; split <;> rfl

theorem tryAcquire_of_lt (s : QState) (j : Nat) (p t : Int)
    (h : s.active < s.maxRequests) :
    tryAcquire s j p t =
      { s with delaying :=
          s.delaying ++ [(j, readyAt s.requestTimeoutMS s.lastReleaseTime t)] } := by
  unfold tryAcquire; rw [if_pos h]

theorem tryAcquire_of_not_lt (s : QState) (j : Nat) (p t : Int)
    (h : ¬ s.active < s.maxRequests) :
    tryAcquire s j p t = { s with buckets := bucketPush s.buckets p j } := by
  unfold tryAcquire; rw [if_neg h]

theorem nextStep_active (s : QState) (t : Int) :
    (nextStep s t).active = s.active := by
  unfold nextStep
  split
  · rfl
  · split
    · rfl
    · rfl
    · exact tryAcquire_active _ _ _ _

theorem nextStep_lastReleaseTime (s : QState) (t : Int) :
    (nextStep s t).lastReleaseTime = s.lastReleaseTime := by
  unfold nextStep
  split
  · rfl
  · split
    · rfl
    · rfl
    · exact tryAcquire_lastReleaseTime _ _ _ _

theorem nextStep_granted (s : QState) (t : Int) :
    (nextStep s t).granted = s.granted := by
  unfold nextStep
  split
  · rfl
  · split
    · rfl
    · rfl
    · exact tryAcquire_granted _ _ _ _

theorem releaseStep_active (s : QState) (t : Int) :
    (releaseStep s t).active = s.active - 1 := by
  unfold releaseStep; rw [nextStep_active]

theorem releaseStep_lastReleaseTime (s : QState) (t : Int) :
    (releaseStep s t).lastReleaseTime = t := by
  unfold releaseStep; rw [nextStep_lastReleaseTime]

theorem releaseStep_granted (s : QState) (t : Int) :
    (releaseStep s t).granted = s.granted := by
  unfold releaseStep; rw [nextStep_granted]

theorem nextStep_eq (s : QState) (t p : Int) (k : Nat) (l : List Nat)
    (hmin : minKey s.buckets = some p)
    (hbucket : bucketLookup s.buckets p = some (k :: l)) :
    nextStep s t =
      tryAcquire { s with buckets :=
        (if l = [] then bucketErase s.buckets p
          else bucketSet s.buckets p l) } k p t := by
  unfold nextStep
  split
  · rename_i h
    rw [h] at hmin
    exact absurd hmin (by simp)
  · rename_i key h
    have hkey : key = p := by
      rw [h] at hmin
      exact (Option.some.inj hmin)
    subst hkey
    split
    · rename_i h2
      rw [h2] at hbucket
      exact absurd hbucket (by simp)
    · rename_i h2
      rw [h2] at hbucket
      exact absurd hbucket (by simp)
    · rename_i k2 rest h2
      rw [h2] at hbucket
      have hcons := Option.some.inj hbucket
      have hk : k2 = k := (List.cons.injEq _ _ _ _ ▸ hcons).1
      have hl : rest = l := (List.cons.injEq _ _ _ _ ▸ hcons).2
      subst hk
      subst hl
      rfl

theorem releaseStep_eq (s : QState) (t p : Int) (k : Nat) (l : List Nat)
    (hmin : minKey s.buckets = some p)
    (hbucket : bucketLookup s.buckets p = some (k :: l))
    (hcap : s.active - 1 < s.maxRequests) :
    releaseStep s t = { s with
      active := s.active - 1,
      lastReleaseTime := t,
      buckets := (if l = [] then bucketErase s.buckets p else bucketSet s.buckets p l),
      delaying := s.delaying ++ [(k, readyAt s.requestTimeoutMS t t)] } := by
  unfold releaseStep
  rw [nextStep_eq ({ s with active := s.active - 1, lastReleaseTime := t })
    t p k l hmin hbucket]
  rw [tryAcquire_of_lt]
  exact hcap

theorem bucketsOK_push (bs : List (Int × List Nat)) (p : Int) (j : Nat)
    (h : BucketsOK bs) : BucketsOK (bucketPush bs p j) := by
  induction bs with
  | nil =>
      intro b hb
      simp only [bucketPush, List.mem_singleton] at hb
      subst hb
      simp
  | cons hd rest ih =>
      intro b hb
      obtain ⟨q, l⟩ := hd
      simp only [bucketPush] at hb
      by_cases hq : q = p
      · rw [if_pos hq] at hb
        rcases List.mem_cons.mp hb with h1 | h1
        · subst h1; simp
        · exact h b (List.mem_cons_of_mem _ h1)
      · rw [if_neg hq] at hb
        rcases List.mem_cons.mp hb with h1 | h1
        · subst h1; exact h (q, l) (List.mem_cons_self _ _)
        · exact ih (fun b hb => h b (List.mem_cons_of_mem _ hb)) b h1

theorem bucketsOK_erase (bs : List (Int × List Nat)) (p : Int)
    (h : BucketsOK bs) : BucketsOK (bucketErase bs p) := by
  intro b hb
  exact h b (List.mem_of_mem_filter hb)

theorem bucketsOK_set (bs : List (Int × List Nat)) (p : Int) (l : List Nat)
    (h : BucketsOK bs) (hl : l ≠ []) : BucketsOK (bucketSet bs p l) := by
  intro b hb
  obtain ⟨b0, hb0, hmap⟩ := List.mem_map.mp hb
  by_cases hq : b0.1 = p
  · rw [if_pos hq] at hmap
    rw [← hmap]
    exact hl
  · rw [if_neg hq] at hmap
    rw [← hmap]
    exact h b0 hb0

theorem bucketsOK_tryAcquire (s : QState) (j : Nat) (p t : Int)
    (h : BucketsOK s.buckets) : BucketsOK (tryAcquire s j p t).buckets := by
  unfold tryAcquire
  split
  · exact h
  · exact bucketsOK_push _ _ _ h

theorem bucketsOK_nextStep (s : QState) (t : Int)
    (h : BucketsOK s.buckets) : BucketsOK (nextStep s t).buckets := by
  unfold nextStep
  split
  · exact h
  · split
    · exact h
    · exact bucketsOK_erase _ _ h
    · rename_i key hmin k rest hbucket
      refine bucketsOK_tryAcquire _ _ _ _ ?_
      by_cases hrest : rest = []
      · rw [if_pos hrest]
        exact bucketsOK_erase _ _ h
      · rw [if_neg hrest]
        exact bucketsOK_set _ _ _ h hrest

theorem bucketsOK_step (s s' : QState) (e : Ev)
    (h : BucketsOK s.buckets) (hs : step s e = some s') :
    BucketsOK s'.buckets := by
  cases e with
  | arrive j p t =>
      simp only [step] at hs
      split at hs
      · cases hs
        exact bucketsOK_tryAcquire _ _ _ _ h
      · cases hs
  | resume j t =>
      simp only [step] at hs
      split at hs
      · cases hs
      · split at hs
        · cases hs
          exact h
        · cases hs
  | release j t =>
      simp only [step] at hs
      split at hs
      · cases hs
        exact bucketsOK_nextStep _ _ h
      · cases hs

theorem bucketsOK_run (evs : List Ev) (s s' : QState)
    (h : BucketsOK s.buckets) (hs : run s evs = some s') :
    BucketsOK s'.buckets := by
  induction evs generalizing s with
  | nil =>
      unfold run at hs
      cases hs
      exact h
  | cons e rest ih =>
      unfold run at hs
      split at hs
      · cases hs
      · rename_i s1 hstep
        exact ih s1 (bucketsOK_step s s1 e h hstep) hs

theorem bucketsNonemptyB_of_OK (s : QState) (h : BucketsOK s.buckets) :
    bucketsNonemptyB s = true := by
  unfold bucketsNonemptyB
  rw [List.all_eq_true]
  intro b hb
  have := h b hb
  simp [List.isEmpty_iff, this]

theorem unstarted_step (s s' : QState) (e : Ev)
    (hm : s.maxRequests ≤ 0) (hg : s.granted = []) (ha : s.active = 0)
    (hd : s.delaying = []) (hs : step s e = some s') :
    s'.maxRequests ≤ 0 ∧ s'.granted = [] ∧ s'.active = 0 ∧ s'.delaying = [] := by
  cases e with
  | arrive j p t =>
      simp only [step] at hs
      split at hs
      · cases hs
        rw [tryAcquire_of_not_lt _ _ _ _ (by simp [ha]; omega)]
        exact ⟨hm, hg, ha, hd⟩
      · cases hs
  | resume j t =>
      simp only [step] at hs
      rw [hd] at hs
      cases hs
  | release j t =>
      simp only [step] at hs
      rw [hg] at hs
      simp only [List.map_nil, List.not_mem_nil, and_false, if_false] at hs
      cases hs

theorem unstarted_run (evs : List Ev) (s s' : QState)
    (hm : s.maxRequests ≤ 0) (hg : s.granted = []) (ha : s.active = 0)
    (hd : s.delaying = []) (hs : run s evs = some s') :
    s'.maxRequests ≤ 0 ∧ s'.granted = [] ∧ s'.active = 0 ∧ s'.delaying = [] := by
  induction evs generalizing s with
  | nil =>
      unfold run at hs
      cases hs
      exact ⟨hm, hg, ha, hd⟩
  | cons e rest ih =>
      unfold run at hs
      split at hs
      · cases hs
      · rename_i s1 hstep
        obtain ⟨h1, h2, h3, h4⟩ := unstarted_step s s1 e hm hg ha hd hstep
        exact ih s1 h1 h2 h3 h4 hs

/-!
## Claim theorems
-/

/-- C1 — the claim fails on the code: with capacity 1 and no pacing, two
`waitTurn` calls both pass the `active < maxRequests` check before
either continuation (which performs the increment *after* the
`await waitForDelay()` suspension) has run, so both are admitted and
`active` reaches 2 > `maxRequests` = 1. -/
theorem c1_active_exceeds_capacity :
    (run (initState 1 0)
        [Ev.arrive 0 5 0, Ev.arrive 1 5 0, Ev.resume 0 0, Ev.resume 1 0]).map
      (fun s => (s.active, s.maxRequests)) = some (2, 1) := by decide

/-- C2 — counterexample to the claim as stated: on a `QueuedResponse`
whose buffered body is present, `formData()` still requests admission
from the owning queue (`waitTurn(3)`) instead of converting the held
buffer — the method never inspects `bodyBlob`. -/
theorem c2_formData_requests_admission_despite_buffer :
    QueuedResponseM.formData ⟨some [104, 105]⟩ = BodyRead.viaQueue 3 := rfl

/-- C2 (amended): when the buffered body is present, `arrayBuffer`,
`blob`, `bytes`, `text` and `json` return the corresponding conversion
of the already-held buffer with no queue admission; `formData` alone
always requests admission at priority 3, buffer or not. -/
theorem c2_amended_buffered_reads {J : Type} (b : List Nat) (parse : String → J) :
    QueuedResponseM.arrayBuffer ⟨some b⟩ = BodyRead.fromBuffer b
    ∧ QueuedResponseM.blob ⟨some b⟩ = BodyRead.fromBuffer b
    ∧ QueuedResponseM.bytes ⟨some b⟩ = BodyRead.fromBuffer b
    ∧ QueuedResponseM.text ⟨some b⟩ = BodyRead.fromBuffer (utf8Decode b)
    ∧ QueuedResponseM.json parse ⟨some b⟩ = BodyRead.fromBuffer (parse (utf8Decode b))
    ∧ QueuedResponseM.formData ⟨some b⟩ = BodyRead.viaQueue 3 :=
  ⟨rfl, rfl, rfl, rfl, rfl, rfl⟩

/-- C3 — counterexample to the claim as stated: with capacity 2 and
`requestTimeoutMS = 100`, two requests arriving at `t = 1000` (long
after the initial `lastReleaseTime = 0`) are both admitted at `t = 1000`
— zero separation, far less than 100 — and `lastReleaseTime` is still 0
after both admissions: admission neither updates `lastReleaseTime` nor
is measured against the previous admission. -/
theorem c3_admissions_not_paced :
    (run (initState 2 100)
        [Ev.arrive 0 5 1000, Ev.arrive 1 5 1000,
         Ev.resume 0 1000, Ev.resume 1 1000]).map
      (fun s => (s.granted, s.lastReleaseTime, s.requestTimeoutMS))
      = some ([(0, 1000), (1, 1000)], 0, 100) := by decide

/-- C4 — counterexample to the claim as stated: the `FetchQueue`
constructor body is empty, so constructing with `maxRequests = 0`
succeeds (no error of any kind), and the first `waitTurn` call is simply
enqueued in the priority bucket — the misuse surfaces at first use, not
at construction. -/
theorem c4_construction_accepts_nonpositive_capacity :
    initState 0 0 = (⟨0, 0, 0, [], 0, [], [], 0⟩ : QState)
    ∧ step (initState 0 0) (Ev.arrive 0 5 0)
        = some (⟨0, 0, 0, [(5, [0])], 0, [], [], 0⟩ : QState) := by decide

/-- C4 (amended): constructing with non-positive capacity does not fail;
instead every subsequent `waitTurn` request stays queued forever — along
any event trace from such a queue nothing is ever admitted (`granted`
and `delaying` stay empty, `active` stays 0). -/
theorem c4_amended_misuse_surfaces_at_first_use (m T : Int) (hm : m ≤ 0)
    (evs : List Ev) (s : QState) (h : run (initState m T) evs = some s) :
    s.granted = [] ∧ s.active = 0 ∧ s.delaying = [] := by
  have h4 := unstarted_run evs (initState m T) s hm rfl rfl rfl h
  exact ⟨h4.2.1, h4.2.2.1, h4.2.2.2⟩

/-- Concrete witness for the amended C4: capacity 0, one request — it is
queued (bucket 5) and nothing is admitted. -/
theorem c4_amended_witness :
    (⟨0, 0, 0, [(5, [0])], 0, [], [], 0⟩ : QState).granted = []
    ∧ (⟨0, 0, 0, [(5, [0])], 0, [], [], 0⟩ : QState).active = 0
    ∧ (⟨0, 0, 0, [(5, [0])], 0, [], [], 0⟩ : QState).delaying = [] :=
  c4_amended_misuse_surfaces_at_first_use 0 0 (by decide) [Ev.arrive 0 5 0]
    ⟨0, 0, 0, [(5, [0])], 0, [], [], 0⟩ (by decide)

/-- C6 — the claim fails on the code: after the admission race has driven
`active` to 2 with capacity 1 (jobs 0 and 1), jobs 2 then 3 are queued at
the same priority 5.  Releasing job 0 pops job 2, whose re-run
`tryAcquire` still sees `active = 1 ≥ maxRequests = 1` and re-appends
job 2 at the *back* of bucket 5; releasing job 1 then admits job 3
first.  Job 2 was queued before job 3 at the same priority, yet job 3 is
admitted first (`granted` ends `[0, 1, 3]`, job 2 still queued). -/
theorem c6_fifo_within_priority_violated :
    (run (initState 1 0)
        [Ev.arrive 0 5 0, Ev.arrive 1 5 0, Ev.resume 0 0, Ev.resume 1 0,
         Ev.arrive 2 5 0, Ev.arrive 3 5 0, Ev.release 0 0, Ev.release 1 0,
         Ev.resume 3 0]).map
      (fun s => (s.granted.map Prod.fst, s.buckets))
      = some ([0, 1, 3], [(5, [2])]) := by decide

/-- C7: for the slot-protected operations (`FetchQueue.fetch` and the
deferred `QueuedResponse.json`), a failure of the wrapped operation is
propagated unchanged to the caller, and the `finally { free() }` cleanup
applies exactly the same release bookkeeping (decrement, timestamp,
next-waiter admission via `releaseStep`) as on the success path. -/
theorem c7_errors_propagated_slot_released (bb : Bool) (s : QState) (t : Int)
    (e : String) (body : List Nat) {J : Type} (o : Except String J) :
    (fetchAfterAdmission bb s t (Except.error e)).2 = Except.error e
    ∧ (fetchAfterAdmission bb s t (Except.error e)).1
        = (fetchAfterAdmission bb s t (Except.ok body)).1
    ∧ (fetchAfterAdmission bb s t (Except.error e)).1.active = s.active - 1
    ∧ (jsonAfterAdmission s t o).1 = releaseStep { s with now := t } t
    ∧ (jsonAfterAdmission s t o).2 = o := by
  refine ⟨rfl, rfl, ?_, ?_, ?_⟩
  · simp only [fetchAfterAdmission]
    rw [releaseStep_active]
  · cases o <;> rfl
  · cases o <;> rfl

/-- C8: with `bufferBody = true`, `FetchQueue.fetch` reads the full body
(`await res.blob()`) strictly before the `finally` block releases the
admission slot, and the returned `QueuedResponse` holds the buffered
body. -/
theorem c8_body_buffered_before_release (s : QState) (t : Int) (body : List Nat) :
    fetchEffects true
      = [FetchEffect.acquireSlot, FetchEffect.network,
         FetchEffect.readBodyBlob, FetchEffect.releaseSlot]
    ∧ (fetchEffects true).indexOf FetchEffect.readBodyBlob
        < (fetchEffects true).indexOf FetchEffect.releaseSlot
    ∧ (fetchAfterAdmission true s t (Except.ok body)).2
        = Except.ok ⟨some body⟩ :=
  ⟨rfl, by decide, rfl⟩

/-- C9: in every state reachable from a freshly constructed queue, every
priority key present in the pending map holds a non-empty waiter list —
buckets are created only by appending a waiter and deleted the moment
their last waiter is removed. -/
theorem c9_no_empty_buckets (m T : Int) (evs : List Ev) (s : QState)
    (h : run (initState m T) evs = some s) :
    bucketsNonemptyB s = true :=
  bucketsNonemptyB_of_OK s
    (bucketsOK_run evs (initState m T) s
      (fun b hb => absurd hb (List.not_mem_nil b)) h)

/-- Concrete witness for C9: one queued request, bucket `[(5, [0])]`. -/
theorem c9_witness :
    bucketsNonemptyB (⟨0, 0, 0, [(5, [0])], 0, [], [], 0⟩ : QState) = true :=
  c9_no_empty_buckets 0 0 [Ev.arrive 0 5 0]
    ⟨0, 0, 0, [(5, [0])], 0, [], [], 0⟩ (by decide)

/-- C10: the `unlock` closure has no one-shot guard — whenever job `j`
has ever been granted an unlock, invoking it again is a valid event that
unconditionally decrements `active`, updates `lastReleaseTime` and runs
one `next()` admission pass; a second invocation for a single admission
therefore releases a second slot. -/
theorem c10_release_not_one_shot (s : QState) (j : Nat) (t : Int)
    (h1 : s.now ≤ t) (h2 : j ∈ s.granted.map Prod.fst) :
    step s (Ev.release j t) = some (releaseStep { s with now := t } t)
    ∧ (releaseStep { s with now := t } t).active = s.active - 1
    ∧ (releaseStep { s with now := t } t).lastReleaseTime = t := by
  refine ⟨?_, ?_, ?_⟩
  · simp only [step]
    rw [if_pos ⟨h1, h2⟩]
  · rw [releaseStep_active]
  · exact releaseStep_lastReleaseTime _ _

/-- Concrete witness for C10: after job 0 was admitted and has already
released once (`active = 0`, no other job active), a second invocation of
its unlock is still accepted and drives `active` to −1. -/
theorem c10_witness :
    step (⟨1, 0, 0, [], 0, [], [(0, 0)], 0⟩ : QState) (Ev.release 0 0)
      = some (releaseStep
          { (⟨1, 0, 0, [], 0, [], [(0, 0)], 0⟩ : QState) with now := 0 } 0)
    ∧ (releaseStep
          { (⟨1, 0, 0, [], 0, [], [(0, 0)], 0⟩ : QState) with now := 0 } 0).active
        = -1 := by
  have h := c10_release_not_one_shot ⟨1, 0, 0, [], 0, [], [(0, 0)], 0⟩ 0 0
    (by decide) (by decide)
  exact ⟨h.1, by rw [h.2.1]; decide⟩

/-- C5: in any state satisfying the documented data-model invariant
`active ≤ capacity` and holding pending waiters, invoking a release
function at time `t` decrements `active`, sets `lastReleaseTime := t`,
and hands the admission to exactly one waiter: the oldest entry `k` of
the lowest-numbered populated priority bucket `p` (so a priority-0
waiter queued after priority-5 waiters is picked before them).  `k` is
removed from its bucket (the bucket is deleted if it became empty, all
other buckets untouched) and scheduled to resume; no other waiter is
woken and `granted` is unchanged by the release itself. -/
theorem c5_release_admits_min_bucket_head (s : QState) (j k : Nat) (t p : Int)
    (l : List Nat)
    (hnow : s.now ≤ t) (hj : j ∈ s.granted.map Prod.fst)
    (hmin : minKey s.buckets = some p)
    (hbucket : bucketLookup s.buckets p = some (k :: l))
    (hcap : s.active ≤ s.maxRequests) :
    step s (Ev.release j t) = some (releaseStep { s with now := t } t)
    ∧ (releaseStep { s with now := t } t).active = s.active - 1
    ∧ (releaseStep { s with now := t } t).lastReleaseTime = t
    ∧ (releaseStep { s with now := t } t).delaying
        = s.delaying ++ [(k, readyAt s.requestTimeoutMS t t)]
    ∧ (releaseStep { s with now := t } t).buckets
        = (if l = [] then bucketErase s.buckets p else bucketSet s.buckets p l)
    ∧ (releaseStep { s with now := t } t).granted = s.granted := by
  have hstep := releaseStep_eq ({ s with now := t }) t p k l hmin hbucket
    (by show s.active - 1 < s.maxRequests; omega)
  refine ⟨?_, ?_, ?_, ?_, ?_, ?_⟩
  · simp only [step]
    rw [if_pos ⟨hnow, hj⟩]
  · rw [hstep]
  · rw [hstep]
  · rw [hstep]
  · rw [hstep]
  · rw [hstep]

/-- Concrete witness for C5: capacity 1, slot held by job 0, waiters
`[1, 2]` at priority 5 and `[3]` at priority 0 (job 3 queued last).
Releasing job 0 at `t = 5` admits job 3 — the head of the
lowest-numbered bucket — removes its (now empty) bucket, and leaves the
priority-5 waiters untouched. -/
theorem c5_witness :
    step (⟨1, 0, 1, [(5, [1, 2]), (0, [3])], 0, [], [(0, 0)], 0⟩ : QState)
        (Ev.release 0 5)
      = some (releaseStep
          { (⟨1, 0, 1, [(5, [1, 2]), (0, [3])], 0, [], [(0, 0)], 0⟩ : QState)
            with now := 5 } 5)
    ∧ (releaseStep
          { (⟨1, 0, 1, [(5, [1, 2]), (0, [3])], 0, [], [(0, 0)], 0⟩ : QState)
            with now := 5 } 5).active = 0
    ∧ (releaseStep
          { (⟨1, 0, 1, [(5, [1, 2]), (0, [3])], 0, [], [(0, 0)], 0⟩ : QState)
            with now := 5 } 5).lastReleaseTime = 5
    ∧ (releaseStep
          { (⟨1, 0, 1, [(5, [1, 2]), (0, [3])], 0, [], [(0, 0)], 0⟩ : QState)
            with now := 5 } 5).delaying = [(3, 5)]
    ∧ (releaseStep
          { (⟨1, 0, 1, [(5, [1, 2]), (0, [3])], 0, [], [(0, 0)], 0⟩ : QState)
            with now := 5 } 5).buckets = [(5, [1, 2])]
    ∧ (releaseStep
          { (⟨1, 0, 1, [(5, [1, 2]), (0, [3])], 0, [], [(0, 0)], 0⟩ : QState)
            with now := 5 } 5).granted = [(0, 0)] :=
  c5_release_admits_min_bucket_head
    ⟨1, 0, 1, [(5, [1, 2]), (0, [3])], 0, [], [(0, 0)], 0⟩ 0 3 5 0 []
    (by decide) (by decide) (by decide) (by decide) (by decide)

/-- C3 (amended): the pacing delay is measured against `lastReleaseTime`
— the time of the most recent *release*, not of the previous admission.
With `requestTimeoutMS = T > 0`, a request that finds a free slot at
time `t` is scheduled to resume no earlier than `lastReleaseTime + T`
(and no earlier than `t` itself), while the admission (`resume`) leaves
`lastReleaseTime` unchanged and only records the grant — so two
admissions into distinct free slots may be separated by less than `T`. -/
theorem c3_amended_pacing_measured_from_release :
    (∀ (s : QState) (j : Nat) (p t : Int),
        0 < s.requestTimeoutMS → s.active < s.maxRequests → s.now ≤ t →
        ¬ j ∈ QState.jobs s →
        step s (Ev.arrive j p t)
          = some { s with
              now := t,
              delaying := s.delaying ++ [(j, readyAt s.requestTimeoutMS s.lastReleaseTime t)] }
        ∧ s.lastReleaseTime + s.requestTimeoutMS
            ≤ readyAt s.requestTimeoutMS s.lastReleaseTime t
        ∧ t ≤ readyAt s.requestTimeoutMS s.lastReleaseTime t)
    ∧ (∀ (s s1 : QState) (j k : Nat) (r t : Int) (rest : List (Nat × Int)),
        s.delaying = (k, r) :: rest → step s (Ev.resume j t) = some s1 →
        r ≤ t ∧ s1.lastReleaseTime = s.lastReleaseTime
          ∧ s1.granted = s.granted ++ [(j, t)]) := by
  constructor
  · intro s j p t hT hcap hnow hfresh
    refine ⟨?_, ?_, ?_⟩
    · simp only [step]
      rw [if_pos ⟨hnow, hfresh⟩]
      rw [tryAcquire_of_lt ({ s with now := t }) j p t hcap]
    · unfold readyAt
      rw [if_neg (by omega : ¬ s.requestTimeoutMS ≤ 0)]
      split
      · omega
      · omega
    · unfold readyAt
      rw [if_neg (by omega : ¬ s.requestTimeoutMS ≤ 0)]
      split
      · omega
      · omega
  · intro s s1 j k r t rest hdel hs
    simp only [step, hdel] at hs
    split at hs
    · rename_i hcond
      cases hs
      exact ⟨hcond.2.2, rfl, rfl⟩
    · cases hs

/-- Concrete witness for the amended C3: `T = 100`, last release at 0.
A request arriving at `t = 50` is scheduled to resume at
`readyAt 100 0 50 = 100 ≥ lastReleaseTime + T`; resuming it at `t = 150`
leaves `lastReleaseTime` at 0 and records the grant at 150. -/
theorem c3_amended_witness :
    (step (⟨1, 100, 0, [], 0, [], [], 0⟩ : QState) (Ev.arrive 0 5 50)
        = some (⟨1, 100, 0, [], 0, [(0, 100)], [], 50⟩ : QState)
      ∧ (100 : Int) ≤ readyAt 100 0 50
      ∧ (50 : Int) ≤ readyAt 100 0 50)
    ∧ ((100 : Int) ≤ 150
      ∧ (⟨1, 100, 1, [], 0, [], [(0, 150)], 150⟩ : QState).lastReleaseTime
          = (⟨1, 100, 0, [], 0, [(0, 100)], [], 50⟩ : QState).lastReleaseTime
      ∧ (⟨1, 100, 1, [], 0, [], [(0, 150)], 150⟩ : QState).granted
          = (⟨1, 100, 0, [], 0, [(0, 100)], [], 50⟩ : QState).granted
            ++ [(0, 150)]) :=
  ⟨c3_amended_pacing_measured_from_release.1 ⟨1, 100, 0, [], 0, [], [], 0⟩ 0 5 50
      (by decide) (by decide) (by decide) (by decide),
   c3_amended_pacing_measured_from_release.2 ⟨1, 100, 0, [], 0, [(0, 100)], [], 50⟩
      ⟨1, 100, 1, [], 0, [], [(0, 150)], 150⟩ 0 0 100 150 []
      (by decide) (by decide)⟩
